import Mathlib

/-!
Verification development for the video-backend HTTP service (src/index.js).

The service is a single Express application.  We shallowly embed the parts
the specification talks about:

* JSON values sent in request bodies (`JVal`), with the JavaScript
  truthiness, property access, `||` and `Number()` coercions the handlers
  rely on;
* the side effects a job performs (`Fx`): downloads, manifest writes,
  engine (ffmpeg) invocations, probe (ffprobe) invocations, artifact path
  allocations, static file reads;
* an oracle environment (`Env`) standing for the network, the filesystem
  randomness and the external engine, so that handlers are deterministic
  functions of the request, the body and the oracles;
* each route handler, the route dispatcher, the API-key middleware and the
  static file layer (`appHandle`), translated line by line from the source.

Floating point: ffprobe durations are modelled as rationals (`ℚ`); the
handlers only round, divide and take remainders of them, which the JS
number type performs exactly on the magnitudes involved.  `NaN` (a probe
emitting a non-numeric duration string) is outside the model.
-/

/-- The single-quote character, written without an apostrophe so the file
avoids quote characters inside string literals. -/
def sqc : Char := Char.ofNat 39

/-- The single-quote character as a one-character string. -/
def sqs : String := String.singleton sqc

/-- The backslash character. -/
def bslc : Char := Char.ofNat 92

/-- JSON-ish JavaScript values as they appear in `req.body` after
`express.json` parsing: `undefined` is included because property access on
an object lacking the property yields it. -/
inductive JVal where
  | vundefined : JVal
  | vnull : JVal
  | vbool : Bool → JVal
  | vnum : ℚ → JVal
  | vstr : String → JVal
  | varr : List JVal → JVal
  | vobj : List (String × JVal) → JVal
deriving Repr

/-- JavaScript truthiness of a value (`Boolean(v)`).  `NaN` is absent from
the rational model, so a numeric value is truthy iff nonzero. -/
def truthy : JVal → Bool
  | .vundefined => false
  | .vnull => false
  | .vbool b => b
  | .vnum q => q != 0
  | .vstr s => s != ""
  | .varr _ => true
  | .vobj _ => true

/-- A value on which property access throws a `TypeError`
(`null.f` / `undefined.f`). -/
def isNullish : JVal → Bool
  | .vundefined => true
  | .vnull => true
  | _ => false

/-- First-wins association-list lookup; `vobj` field lists represent parsed
JSON objects, whose keys are unique. -/
def lookupField : List (String × JVal) → String → Option JVal
  | [], _ => none
  | (k, v) :: t, key => if k = key then some v else lookupField t key

/-- Property access `v.key` on a non-nullish value: a field of an object,
`undefined` otherwise (strings, numbers, booleans and arrays have none of
the property names the handlers use).  Callers must check `isNullish`
first, as the source code would throw there. -/
def jsGet (v : JVal) (key : String) : JVal :=
  match v with
  | .vobj fs => (lookupField fs key).getD .vundefined
  | _ => .vundefined

/-- JavaScript short-circuit disjunction on values (`a || b`). -/
def jsOr (a b : JVal) : JVal := if truthy a then a else b

/-- Decimal string-to-number coercion used by `Number("...")`: optional
surrounding whitespace, optional sign, digits with an optional fractional
part.  `none` stands for `NaN`.  Exponent, hex and `Infinity` forms are
not modelled (no handler input in the claims uses them). -/
def parseUnsignedDec (l : List Char) : Option ℚ :=
  let intPart := l.takeWhile Char.isDigit
  let rest := l.dropWhile Char.isDigit
  let intVal : ℕ := intPart.foldl (fun acc c => 10 * acc + (c.toNat - 48)) 0
  match rest with
  | [] => if intPart.isEmpty then none else some intVal
  | c :: frac =>
    if c = Char.ofNat 46 ∧ frac.all Char.isDigit ∧ (¬ intPart.isEmpty ∨ ¬ frac.isEmpty) then
      some (intVal + (frac.foldl (fun acc ch => 10 * acc + (ch.toNat - 48)) 0 : ℕ) / (10 ^ frac.length : ℚ))
    else none

/-- `Number(s)` for a string `s` (`none` = `NaN`). -/
def jsStringToNumber (s : String) : Option ℚ :=
  let l := ((s.data.dropWhile Char.isWhitespace).reverse.dropWhile Char.isWhitespace).reverse
  match l with
  | [] => some 0
  | c :: r =>
    if c = Char.ofNat 45 then (parseUnsignedDec r).map (fun q => -q)
    else if c = Char.ofNat 43 then parseUnsignedDec r
    else parseUnsignedDec l

/-- `Number(v)` coercion (`none` = `NaN`).  Objects coerce through their
string form `"[object Object]"`, hence `NaN`; the empty array coerces to
`0`; other arrays coerce through their joined string form, approximated as
`NaN` (the numeric fields of this API are JSON scalars, so no claim
exercises that corner). -/
def jsToNumber : JVal → Option ℚ
  | .vundefined => none
  | .vnull => some 0
  | .vbool b => some (if b then 1 else 0)
  | .vnum q => some q
  | .vstr s => jsStringToNumber s
  | .vobj _ => none
  | .varr [] => some 0
  | .varr (_ :: _) => none

/-- `Number(v) || d`: the default applies when the coercion is `NaN` or
`0` (both falsy). -/
def numOr (v : JVal) (d : ℚ) : ℚ :=
  match jsToNumber v with
  | none => d
  | some q => if q = 0 then d else q

/-- Rendering of a JS number into an argument string (`String(n)` /
template literals).  Integers render exactly as in JS; non-integral
rationals use the Lean fraction notation, a representation difference
that no claim observes. -/
def numToString (q : ℚ) : String :=
  if q.den = 1 then toString q.num else toString q

/-- String coercion of a value (template literals, `String(v)`).  Array
joining is approximated by the empty string; no claim exercises it. -/
def jsToString : JVal → String
  | .vundefined => "undefined"
  | .vnull => "null"
  | .vbool b => if b then "true" else "false"
  | .vnum q => numToString q
  | .vstr s => s
  | .vobj _ => "[object Object]"
  | .varr _ => ""

/-- Side effects a request handler can perform, in execution order. -/
inductive Fx where
  | fetchFx : String → Fx
  | writeFx : String → String → Fx
  | engineFx : List String → Bool → Fx
  | probeFx : String → Bool → Fx
  | publishFx : String → Fx
  | readFx : String → Fx
deriving Repr, DecidableEq

/-- Response bodies, one shape per `res.json(...)` literal in the source.
Error bodies are a single message string and carry no structured code. -/
inductive RespBody where
  | errB : String → RespBody
  | urlIdB : String → JVal → RespBody
  | urlB : String → RespBody
  | metaB : ℚ → String → RespBody
  | capB : JVal → JVal → String → RespBody
  | fileB : String → RespBody
  | statusB : String → String → RespBody
  | notFoundB : RespBody
deriving Repr

/-- Outcome of one request: HTTP status, JSON body, effects performed. -/
structure HOut where
  status : ℕ
  body : RespBody
  fx : List Fx
deriving Repr

/-- Oracles for everything outside the process: `fetch url pfx` is
`downloadToTemp` restricted to string URLs (transport plus the random
temp-file name), `engine` is `runFfmpeg` (exit status), `probe` is
`runFfprobe` (parsed duration), `hexId n` is the n-th random
16-hex-character id a handler draws. -/
structure Env where
  fetch : String → String → Except Unit String
  engine : List String → Except Unit Unit
  probe : String → Except Unit ℚ
  hexId : ℕ → String

/-- The request data the embedded handlers consult. -/
structure Req where
  method : String
  path : String
  apiKey : Option String
  fwdProto : Option String
  fwdHost : Option String
  hostHeader : Option String
  protocol : String
  body : JVal

/-- The ephemeral input directory (`path.join(__dirname, 'tmp')`). -/
def TMP_DIR : String := "tmp"

/-- The served output directory (`path.join(__dirname, 'public')`). -/
def PUBLIC_DIR : String := "public"

/-- `getBaseUrl` (src/index.js:35-39): forwarded-protocol header if
truthy, else the connection protocol; forwarded-host header if truthy,
else `req.get('host')` (`undefined` stringifies if the Host header is
absent, which HTTP clients never send). -/
def getBaseUrl (req : Req) : String :=
  let proto := match req.fwdProto with
    | some p => if p = "" then req.protocol else p
    | none => req.protocol
  let hostFallback := match req.hostHeader with
    | some h => h
    | none => "undefined"
  let host := match req.fwdHost with
    | some h => if h = "" then hostFallback else h
    | none => hostFallback
  proto ++ "://" ++ host

/-- `makePublicPath` (src/index.js:95-102): allocates
`prefix-<id><ext>` in the served directory; returns the absolute path and
the `/files/` relative path.  `n` selects which random draw of the
request names this artifact. -/
def makePublicPath (env : Env) (n : ℕ) (pfx ext : String) : String × String :=
  let fileName := pfx ++ "-" ++ env.hexId n ++ ext
  (PUBLIC_DIR ++ "/" ++ fileName, "/files/" ++ fileName)

/-- `downloadToTemp` (src/index.js:76-93) applied to a possibly
non-string value, as the concatenate and compose handlers do: `new
URL(v)` stringifies its argument, and the string form of a non-string
JSON value is never a parsable URL, so those calls throw before any
network traffic.  String URLs defer to the transport oracle; the attempt
is recorded as an effect. -/
def downloadToTempJ (env : Env) (v : JVal) (pfx : String) : List Fx × Except Unit String :=
  match v with
  | .vstr s => ([.fetchFx s], env.fetch s pfx)
  | _ => ([], .error ())

/-- Single-quote escaping of a path for the concat manifest
(src/index.js:275): every quote character becomes close-quote,
backslash-escaped quote, reopen-quote. -/
def escQuoteL : List Char → List Char
  | [] => []
  | c :: cs =>
    (if c = sqc then [sqc, bslc, sqc, sqc] else [c]) ++ escQuoteL cs

/-- `p.replace(/'/g, "'\\''")` at the string level. -/
def escapeQuotes (p : String) : String := ⟨escQuoteL p.data⟩

/-- One manifest line for a resolved temporary-resource path:
`file '<escaped path>'`. -/
def manifestLine (p : String) : String :=
  "file " ++ sqs ++ escapeQuotes p ++ sqs

/-- `Array.prototype.join('\n')`. -/
def joinNl : List String → String
  | [] => ""
  | [x] => x
  | x :: y :: t => x ++ "\n" ++ joinNl (y :: t)

/-- The full Concatenation Manifest text for a list of resolved paths
(src/index.js:275). -/
def listContent (paths : List String) : String :=
  joinNl (paths.map manifestLine)

/-- Split a character list at newline characters (the standard meaning of
the lines of a text file; the empty text has one empty line). -/
def splitNl : List Char → List (List Char)
  | [] => [[]]
  | c :: cs =>
    match splitNl cs with
    | [] => [[]]
    | h :: t => if c = Char.ofNat 10 then [] :: h :: t else (c :: h) :: t

/-- The lines of a string. -/
def linesOf (s : String) : List String := (splitNl s.data).map String.mk

/-- Parser for the single-quote/backslash word quoting the manifest rule
targets (the engine's concat demuxer token syntax, the one consumer of
the escaped form).  Modelled from the spec: outside quotes a backslash
escapes the next character and a quote opens a quoted span; inside a
quoted span every character is literal until the closing quote.  `none`
means the word is malformed (unterminated quote or dangling escape). -/
def shellParse : Bool → List Char → Option (List Char)
  | false, [] => some []
  | true, [] => none
  | false, c :: cs =>
    if c = bslc then
      match cs with
      | [] => none
      | d :: ds => (shellParse false ds).map (fun r => d :: r)
    else if c = sqc then shellParse true cs
    else (shellParse false cs).map (fun r => c :: r)
  | true, c :: cs =>
    if c = sqc then shellParse false cs
    else (shellParse true cs).map (fun r => c :: r)

/-- Wrap an (already escaped) path in single quotes, as the manifest line
does. -/
def quoteWrap (s : String) : String := sqs ++ s ++ sqs

/-- Read a quoted word back into the path it denotes. -/
def shellUnquote (s : String) : Option String :=
  (shellParse false s.data).map String.mk

/-- The zoompan/scale/framerate filter string built at src/index.js:119-123
(the quote characters are engine filter syntax). -/
def zoomFilter (fps : ℚ) : String :=
  "zoompan=z=" ++ sqs ++ "min(zoom+0.0008,1.3)" ++ sqs ++ ":d=" ++ numToString fps ++
    ":x=" ++ sqs ++ "iw/2-(iw/zoom/2)" ++ sqs ++
    ":y=" ++ sqs ++ "ih/2-(ih/zoom/2)" ++ sqs ++
    "," ++ "scale=1080:1920" ++ "," ++ "framerate=" ++ numToString fps

/-- POST /v1/image/convert/video (src/index.js:105-148).  Destructures
the body (a nullish body throws and is caught as 500), validates
`image_url`, applies the `Number(x) || default` rule to `length` and
`frame_rate`, reads but never uses `zoom_speed`, downloads the image,
allocates the output artifact, invokes the engine, and returns the
published URL with the echoed id. -/
def imageToVideoH (env : Env) (req : Req) (body : JVal) : HOut :=
  if isNullish body then
    { status := 500, body := .errB "Failed to create video from image", fx := [] }
  else
    let image_url := jsGet body "image_url"
    let length := jsGet body "length"
    let frame_rate := jsGet body "frame_rate"
    let _zoom_speed := jsGet body "zoom_speed"
    let id := jsGet body "id"
    if ¬ truthy image_url then
      { status := 400, body := .errB "image_url is required", fx := [] }
    else
      let videoLength := numOr length 20
      let fps := numOr frame_rate 25
      match downloadToTempJ env image_url "image" with
      | (fx0, .error _) =>
        { status := 500, body := .errB "Failed to create video from image", fx := fx0 }
      | (fx0, .ok imagePath) =>
        let pub := makePublicPath env 0 "scene" ".mp4"
        let args := ["-loop", "1", "-i", imagePath, "-t", numToString videoLength,
          "-vf", zoomFilter fps, "-c:v", "libx264", "-pix_fmt", "yuv420p", pub.1]
        match env.engine args with
        | .error _ =>
          { status := 500, body := .errB "Failed to create video from image",
            fx := fx0 ++ [.publishFx pub.2, .engineFx args false] }
        | .ok _ =>
          { status := 200,
            body := .urlIdB (getBaseUrl req ++ pub.2) (jsOr id .vnull),
            fx := fx0 ++ [.publishFx pub.2, .engineFx args true] }

/-- POST /v1/media/metadata (src/index.js:151-175) up to the probe; the
formatting of the duration lives in `formatDuration` below. -/
def jsRound (q : ℚ) : ℤ := ⌊q + 1 / 2⌋

/-- `String.padStart(2, '0')`. -/
def padStart2 (s : String) : String :=
  if s.length ≥ 2 then s else ⟨List.replicate (2 - s.length) (Char.ofNat 48) ++ s.data⟩

/-- The HH:MM:SS rendering at src/index.js:161-165: round to the nearest
second, floor-divide into hours / minutes (JS `%` keeps the dividend
sign, hence `Int.tmod`; `Math.floor` of the quotient is `Int.fdiv`), and
zero-pad each field to two characters. -/
def formatDuration (duration : ℚ) : String :=
  let totalSeconds : ℤ := jsRound duration
  let h := padStart2 (toString (Int.fdiv totalSeconds 3600))
  let m := padStart2 (toString (Int.fdiv (Int.tmod totalSeconds 3600) 60))
  let s := padStart2 (toString (Int.tmod totalSeconds 60))
  h ++ ":" ++ m ++ ":" ++ s

/-- POST /v1/media/metadata (src/index.js:151-175). -/
def mediaMetadataH (env : Env) (body : JVal) : HOut :=
  if isNullish body then
    { status := 500, body := .errB "Failed to get media metadata", fx := [] }
  else
    let media_url := jsGet body "media_url"
    if ¬ truthy media_url then
      { status := 400, body := .errB "media_url is required", fx := [] }
    else
      match downloadToTempJ env media_url "audio-meta" with
      | (fx0, .error _) =>
        { status := 500, body := .errB "Failed to get media metadata", fx := fx0 }
      | (fx0, .ok audioPath) =>
        match env.probe audioPath with
        | .error _ =>
          { status := 500, body := .errB "Failed to get media metadata",
            fx := fx0 ++ [.probeFx audioPath false] }
        | .ok duration =>
          { status := 200, body := .metaB duration (formatDuration duration),
            fx := fx0 ++ [.probeFx audioPath true] }

/-- POST /v1/video/trim (src/index.js:178-208). -/
def videoTrimH (env : Env) (req : Req) (body : JVal) : HOut :=
  if isNullish body then
    { status := 500, body := .errB "Failed to trim video", fx := [] }
  else
    let video_url := jsGet body "video_url"
    let start := jsGet body "start"
    let endv := jsGet body "end"
    if ¬ truthy video_url then
      { status := 400, body := .errB "video_url is required", fx := [] }
    else
      match downloadToTempJ env video_url "trim-in" with
      | (fx0, .error _) =>
        { status := 500, body := .errB "Failed to trim video", fx := fx0 }
      | (fx0, .ok videoPath) =>
        let pub := makePublicPath env 0 "trim-out" ".mp4"
        let args := ["-ss", jsToString (jsOr start (.vstr "00:00:00"))] ++
          (if truthy endv then ["-to", jsToString endv] else []) ++
          ["-i", videoPath, "-c", "copy", pub.1]
        match env.engine args with
        | .error _ =>
          { status := 500, body := .errB "Failed to trim video",
            fx := fx0 ++ [.publishFx pub.2, .engineFx args false] }
        | .ok _ =>
          { status := 200, body := .urlB (getBaseUrl req ++ pub.2),
            fx := fx0 ++ [.publishFx pub.2, .engineFx args true] }

/-- POST /v1/ffmpeg/compose (src/index.js:211-251).  A nullish element at
index 0 or 1 throws at the `.file_url` access and is caught as 500. -/
def composeH (env : Env) (req : Req) (body : JVal) : HOut :=
  if isNullish body then
    { status := 500, body := .errB "Failed to compose audio+video", fx := [] }
  else
    match jsGet body "inputs" with
    | .varr (in0 :: in1 :: _) =>
      if isNullish in0 ∨ isNullish in1 then
        { status := 500, body := .errB "Failed to compose audio+video", fx := [] }
      else
        let videoInput := jsGet in0 "file_url"
        let audioInput := jsGet in1 "file_url"
        if ¬ truthy videoInput ∨ ¬ truthy audioInput then
          { status := 400, body := .errB "file_url missing in inputs", fx := [] }
        else
          match downloadToTempJ env videoInput "compose-video" with
          | (fxv, .error _) =>
            { status := 500, body := .errB "Failed to compose audio+video", fx := fxv }
          | (fxv, .ok videoPath) =>
            match downloadToTempJ env audioInput "compose-audio" with
            | (fxa, .error _) =>
              { status := 500, body := .errB "Failed to compose audio+video", fx := fxv ++ fxa }
            | (fxa, .ok audioPath) =>
              let pub := makePublicPath env 0 "compose-out" ".mp4"
              let args := ["-i", videoPath, "-i", audioPath, "-map", "0:v:0",
                "-map", "1:a:0", "-c:v", "copy", "-c:a", "aac", "-shortest", pub.1]
              match env.engine args with
              | .error _ =>
                { status := 500, body := .errB "Failed to compose audio+video",
                  fx := fxv ++ fxa ++ [.publishFx pub.2, .engineFx args false] }
              | .ok _ =>
                { status := 200, body := .urlB (getBaseUrl req ++ pub.2),
                  fx := fxv ++ fxa ++ [.publishFx pub.2, .engineFx args true] }
    | _ =>
      { status := 400, body := .errB "inputs[video, audio] required", fx := [] }

/-- The download loop of POST /v1/video/concatenate (src/index.js:263-269):
resolve each entry as `item.video_url || item`, skip falsy resolutions,
download the rest in order; a nullish entry throws at the property access
and a failed download aborts the loop.  Returns the effects performed and
either the local paths or the thrown error. -/
def concatLoop (env : Env) : List JVal → List Fx × Except Unit (List String)
  | [] => ([], .ok [])
  | item :: rest =>
    if isNullish item then ([], .error ())
    else
      let url := jsOr (jsGet item "video_url") item
      if ¬ truthy url then concatLoop env rest
      else
        match downloadToTempJ env url "concat" with
        | (fx0, .error _) => (fx0, .error ())
        | (fx0, .ok p) =>
          match concatLoop env rest with
          | (fx1, .error _) => (fx0 ++ fx1, .error ())
          | (fx1, .ok ps) => (fx0 ++ fx1, .ok (p :: ps))

/-- POST /v1/video/concatenate (src/index.js:254-301). -/
def concatenateH (env : Env) (req : Req) (body : JVal) : HOut :=
  if isNullish body then
    { status := 500, body := .errB "Failed to concatenate videos", fx := [] }
  else
    let id := jsGet body "id"
    match jsGet body "video_urls" with
    | .varr (e0 :: es) =>
      let tempListPath := TMP_DIR ++ "/concat-" ++ env.hexId 0 ++ ".txt"
      match concatLoop env (e0 :: es) with
      | (fx0, .error _) =>
        { status := 500, body := .errB "Failed to concatenate videos", fx := fx0 }
      | (fx0, .ok []) =>
        { status := 400, body := .errB "No valid video URLs", fx := fx0 }
      | (fx0, .ok localPaths) =>
        let content := listContent localPaths
        let pfx := if truthy id then "concat-" ++ jsToString id else "concat-out"
        let pub := makePublicPath env 1 pfx ".mp4"
        let args := ["-f", "concat", "-safe", "0", "-i", tempListPath, "-c", "copy", pub.1]
        match env.engine args with
        | .error _ =>
          { status := 500, body := .errB "Failed to concatenate videos",
            fx := fx0 ++ [.writeFx tempListPath content, .publishFx pub.2, .engineFx args false] }
        | .ok _ =>
          { status := 200,
            body := .urlIdB (getBaseUrl req ++ pub.2) (jsOr id .vnull),
            fx := fx0 ++ [.writeFx tempListPath content, .publishFx pub.2, .engineFx args true] }
    | _ =>
      { status := 400, body := .errB "video_urls must be non-empty array", fx := [] }

/-- POST /v1/video/caption (src/index.js:304-320): pass-through stub. -/
def captionH (body : JVal) : HOut :=
  if isNullish body then
    { status := 500, body := .errB "Failed in caption stub", fx := [] }
  else
    let video_url := jsGet body "video_url"
    let id := jsGet body "id"
    if ¬ truthy video_url then
      { status := 400, body := .errB "video_url is required", fx := [] }
    else
      { status := 200,
        body := .capB video_url (jsOr id .vnull) "Captioning stub: extend later if needed.",
        fx := [] }

/-- The six job kinds, one per POST route. -/
inductive Route where
  | imageToVideo | mediaMetadata | videoTrim | compose | concatenate | caption
deriving Repr, DecidableEq

/-- Run one job kind on a body. -/
def runRoute (k : Route) (env : Env) (req : Req) (body : JVal) : HOut :=
  match k with
  | .imageToVideo => imageToVideoH env req body
  | .mediaMetadata => mediaMetadataH env body
  | .videoTrim => videoTrimH env req body
  | .compose => composeH env req body
  | .concatenate => concatenateH env req body
  | .caption => captionH body

/-- Route registration (the `app.post`/`app.get` calls): map method and
path to the handler; anything else falls through to the Express 404. -/
def dispatch (env : Env) (req : Req) : HOut :=
  if req.method = "POST" ∧ req.path = "/v1/image/convert/video" then
    runRoute .imageToVideo env req req.body
  else if req.method = "POST" ∧ req.path = "/v1/media/metadata" then
    runRoute .mediaMetadata env req req.body
  else if req.method = "POST" ∧ req.path = "/v1/video/trim" then
    runRoute .videoTrim env req req.body
  else if req.method = "POST" ∧ req.path = "/v1/ffmpeg/compose" then
    runRoute .compose env req req.body
  else if req.method = "POST" ∧ req.path = "/v1/video/concatenate" then
    runRoute .concatenate env req req.body
  else if req.method = "POST" ∧ req.path = "/v1/video/caption" then
    runRoute .caption env req req.body
  else if req.method = "GET" ∧ req.path = "/" then
    { status := 200, body := .statusB "ok" "Video backend running", fx := [] }
  else
    { status := 404, body := .notFoundB, fx := [] }

/-- Does `p` start with the characters of `pfx`? -/
def strHasPfx (pfx s : String) : Bool := s.data.take pfx.data.length = pfx.data

/-- The API-key middleware (src/index.js:27-33): the `x-api-key` header
must be truthy and exactly equal to the configured secret, otherwise 401
with no further processing. -/
def apiKeyGate (secret : String) (env : Env) (req : Req) : HOut :=
  let pass := match req.apiKey with
    | none => false
    | some k => k ≠ "" ∧ k = secret
  if pass then dispatch env req
  else { status := 401, body := .errB "Unauthorized", fx := [] }

/-- The whole middleware stack (src/index.js:20-33 plus the routes):
`express.static` is mounted on `/files` ahead of the API-key check, so a
GET for an existing file under `/files/` is served with no
authentication; a miss falls through to the key gate.  (The static
layer's directory-redirect behavior for `/files` itself, without a
trailing slash, is not modelled; no claim depends on it.)  `files` maps a
name in the served directory to its content when present. -/
def appHandle (secret : String) (files : String → Option String)
    (env : Env) (req : Req) : HOut :=
  if req.method = "GET" ∧ strHasPfx "/files/" req.path ∧ 7 < req.path.data.length then
    match files ⟨req.path.data.drop 7⟩ with
    | some c => { status := 200, body := .fileB c, fx := [.readFx ⟨req.path.data.drop 7⟩] }
    | none => apiKeyGate secret env req
  else apiKeyGate secret env req

/-- The resolution rule applied to a concatenate entry
(src/index.js:265, `item.video_url || item`), for non-nullish entries. -/
def resolveEntry (e : JVal) : JVal := jsOr (jsGet e "video_url") e

/-- The entries that survive the skip (truthy resolution), in input
order. -/
def resolvedOf (l : List JVal) : List JVal :=
  l.filterMap (fun e => if truthy (resolveEntry e) then some (resolveEntry e) else none)

/-- An entry resolves to a usable URL: its resolution is a (truthy)
string that the transport can actually download. -/
def resolvesToUsableUrl (env : Env) (e : JVal) : Prop :=
  ∃ s p, resolveEntry e = .vstr s ∧ s ≠ "" ∧ env.fetch s "concat" = .ok p

/-- The download attempts recorded in an effect list, in order. -/
def fetchesOf (fx : List Fx) : List String :=
  fx.filterMap (fun e => match e with | .fetchFx u => some u | _ => none)

/-- A benign oracle environment: every fetch and every engine run
succeeds, probes report 7 seconds, random ids are a fixed hex string. -/
def envOk : Env where
  fetch := fun s _ => .ok (TMP_DIR ++ "/dl-" ++ s)
  engine := fun _ => .ok ()
  probe := fun _ => .ok 7
  hexId := fun _ => "00112233aabbccdd"

/-- An environment whose engine always fails (non-zero exit or spawn
failure); everything else succeeds. -/
def envEngineFail : Env where
  fetch := fun s _ => .ok (TMP_DIR ++ "/dl-" ++ s)
  engine := fun _ => .error ()
  probe := fun _ => .ok 7
  hexId := fun _ => "00112233aabbccdd"

/-- A plain authorized POST request to a given path with a given body. -/
def mkReq (path : String) (body : JVal) : Req where
  method := "POST"
  path := path
  apiKey := some "local-dev-key-123"
  fwdProto := none
  fwdHost := none
  hostHeader := some "localhost:8080"
  protocol := "http"
  body := body

/-- The newline character. -/
def nlc : Char := Char.ofNat 10

theorem splitNl_ne_nil (l : List Char) : splitNl l ≠ [] := by
  cases l with
  | nil => simp [splitNl]
  | cons c cs =>
    simp only [splitNl]
    cases splitNl cs with
    | nil => simp
    | cons h t =>
      by_cases hc : c = Char.ofNat 10 <;> simp [hc]

theorem splitNl_no_newline (xs : List Char) (h : nlc ∉ xs) : splitNl xs = [xs] := by
  induction xs with
  | nil => rfl
  | cons c cs ih =>
    have hc : c ≠ Char.ofNat 10 := fun hcc => h (by simp [hcc, nlc])
    have hcs : nlc ∉ cs := fun hm => h (List.mem_cons_of_mem _ hm)
    simp [splitNl, ih hcs, hc]

theorem splitNl_append (xs ys : List Char) (h : nlc ∉ xs) :
    splitNl (xs ++ nlc :: ys) = xs :: splitNl ys := by
  induction xs with
  | nil =>
    simp only [List.nil_append, splitNl]
    cases hys : splitNl ys with
    | nil => exact absurd hys (splitNl_ne_nil ys)
    | cons a t => simp [nlc]
  | cons c cs ih =>
    have hc : c ≠ Char.ofNat 10 := fun hcc => h (by simp [hcc, nlc])
    have hcs : nlc ∉ cs := fun hm => h (List.mem_cons_of_mem _ hm)
    simp [splitNl, ih hcs, hc]

theorem joinNl_data_split (ls : List String) (hne : ls ≠ [])
    (hnl : ∀ l ∈ ls, nlc ∉ l.data) :
    splitNl (joinNl ls).data = ls.map String.data := by
  induction ls with
  | nil => exact absurd rfl hne
  | cons x xs ih =>
    cases xs with
    | nil =>
      simp only [joinNl, List.map]
      exact splitNl_no_newline x.data (hnl x (by simp))
    | cons y t =>
      have hx : nlc ∉ x.data := hnl x (by simp)
      have hr : splitNl (joinNl (y :: t)).data = (y :: t).map String.data :=
        ih (by simp) (fun l hl => hnl l (List.mem_cons_of_mem _ hl))
      have hdata : (x ++ "\n" ++ joinNl (y :: t)).data =
          x.data ++ nlc :: (joinNl (y :: t)).data := by
        rw [String.data_append, String.data_append]
        simp [nlc]
      simp only [joinNl, hdata, List.map]
      rw [splitNl_append _ _ hx, hr]
      rfl

theorem escQuoteL_no_newline (p : List Char) (h : nlc ∉ p) : nlc ∉ escQuoteL p := by
  induction p with
  | nil => simp [escQuoteL]
  | cons c cs ih =>
    have hc : c ≠ nlc := fun hcc => h (by simp [hcc])
    have hcs : nlc ∉ cs := fun hm => h (List.mem_cons_of_mem _ hm)
    by_cases hq : c = sqc <;>
      simp_all [escQuoteL, sqc, bslc, nlc, Ne.symm hc]

theorem manifestLine_no_newline (p : String) (h : nlc ∉ p.data) :
    nlc ∉ (manifestLine p).data := by
  have hesc := escQuoteL_no_newline p.data h
  simp only [manifestLine, escapeQuotes, String.data_append]
  intro hm
  rcases List.mem_append.mp hm with hm1 | hm2
  · rcases List.mem_append.mp hm1 with hm3 | hm4
    · rcases List.mem_append.mp hm3 with hm5 | hm6
      · simp [nlc] at hm5
      · simp [sqs, sqc, String.singleton, nlc] at hm6
    · exact hesc hm4
  · simp [sqs, sqc, String.singleton, nlc] at hm2

theorem shellParse_false_quote (l : List Char) :
    shellParse false (sqc :: l) = shellParse true l := by
  rw [shellParse.eq_def]
  simp only []
  simp
  exact fun h => absurd h (by decide)

theorem shellParse_true_quote (l : List Char) :
    shellParse true (sqc :: l) = shellParse false l := by
  rw [shellParse.eq_def]
  simp only []
  simp

theorem shellParse_true_other (c : Char) (h : c ≠ sqc) (l : List Char) :
    shellParse true (c :: l) = (shellParse true l).map (fun r => c :: r) := by
  rw [shellParse.eq_def]
  simp only []
  rw [if_neg h]

theorem shellParse_false_bsl (d : Char) (ds : List Char) :
    shellParse false (bslc :: d :: ds) = (shellParse false ds).map (fun r => d :: r) := by
  rw [shellParse.eq_def]
  simp only []
  simp

theorem shellParse_escaped (p rest : List Char) :
    shellParse true (escQuoteL p ++ sqc :: rest) =
      (shellParse false rest).map (fun r => p ++ r) := by
  induction p with
  | nil =>
    rw [show escQuoteL [] ++ sqc :: rest = sqc :: rest from rfl, shellParse_true_quote]
    cases shellParse false rest <;> simp
  | cons c cs ih =>
    by_cases hq : c = sqc
    · subst hq
      rw [show escQuoteL (sqc :: cs) ++ sqc :: rest =
        sqc :: bslc :: sqc :: sqc :: (escQuoteL cs ++ sqc :: rest) from by
          simp [escQuoteL]]
      rw [shellParse_true_quote, shellParse_false_bsl, shellParse_false_quote, ih]
      cases shellParse false rest <;> simp
    · rw [show escQuoteL (c :: cs) ++ sqc :: rest =
        c :: (escQuoteL cs ++ sqc :: rest) from by simp [escQuoteL, hq]]
      rw [shellParse_true_other c hq, ih]
      cases shellParse false rest <;> simp

theorem shellUnquote_escape (p : String) :
    shellUnquote (quoteWrap (escapeQuotes p)) = some p := by
  have hdata : (quoteWrap (escapeQuotes p)).data = sqc :: (escQuoteL p.data ++ sqc :: []) := by
    simp only [quoteWrap, escapeQuotes, String.data_append]
    simp [sqs, String.singleton]
  rw [shellUnquote, hdata, shellParse_false_quote, shellParse_escaped]
  simp only [shellParse, Option.map_some]
  simp

theorem string_mk_data (s : String) : String.mk s.data = s := by
  cases s
  rfl

/-- Claim C2: for every nonempty list of resolved temporary-resource
paths (none containing a newline, as generated names never do), the
Concatenation Manifest has exactly one line per path, in input order,
each line being `file` plus the path wrapped in single quotes with every
inner quote rewritten as close-quote, escaped quote, reopen-quote; and a
path containing a single quote round-trips through that rule (the quoted
word parses back to the original path). -/
theorem claim_C2_manifest (ps : List String) (hne : ps ≠ [])
    (hnl : ∀ p ∈ ps, nlc ∉ p.data) :
    linesOf (listContent ps) = ps.map manifestLine ∧
    (linesOf (listContent ps)).length = ps.length ∧
    ∀ p : String, shellUnquote (quoteWrap (escapeQuotes p)) = some p := by
  have hmapne : ps.map manifestLine ≠ [] := by
    cases ps with
    | nil => exact absurd rfl hne
    | cons a t => simp
  have hmapnl : ∀ l ∈ ps.map manifestLine, nlc ∉ l.data := by
    intro l hl
    rcases List.mem_map.mp hl with ⟨p, hp, rfl⟩
    exact manifestLine_no_newline p (hnl p hp)
  have hsplit := joinNl_data_split (ps.map manifestLine) hmapne hmapnl
  have hlines : linesOf (listContent ps) = ps.map manifestLine := by
    rw [linesOf, listContent, hsplit, List.map_map]
    have : (String.mk ∘ String.data) = id := by
      funext s
      exact string_mk_data s
    rw [this, List.map_id]
  refine ⟨hlines, ?_, fun p => shellUnquote_escape p⟩
  rw [hlines, List.length_map]

/-- Witness for C2 at a concrete two-path list whose second path contains
a single quote. -/
theorem claim_C2_manifest_witness :
    linesOf (listContent ["tmp/a.mp4", String.mk [sqc, Char.ofNat 120]]) =
      ["tmp/a.mp4", String.mk [sqc, Char.ofNat 120]].map manifestLine ∧
    shellUnquote (quoteWrap (escapeQuotes (String.mk [sqc, Char.ofNat 120]))) =
      some (String.mk [sqc, Char.ofNat 120]) := by
  have h := claim_C2_manifest ["tmp/a.mp4", String.mk [sqc, Char.ofNat 120]]
    (by decide) (by decide)
  exact ⟨h.1, h.2.2 (String.mk [sqc, Char.ofNat 120])⟩

theorem padStart2_length_two (s : String) (h : s.length ≤ 2) :
    (padStart2 s).length = 2 := by
  rw [padStart2]
  split
  · omega
  · rw [String.length_mk, List.length_append, List.length_replicate]
    have : s.data.length = s.length := rfl
    omega

theorem natToString_length_le_two : ∀ k : ℕ, k < 60 → (toString k).length ≤ 2 := by
  decide

theorem toString_intCast_natCast (k : ℕ) : toString ((k : ℕ) : ℤ) = toString k := rfl

/-- Claim C5: when the probe of a MediaMetadata request succeeds with
duration `d` (nonnegative, as media durations are), the response carries
`d` itself plus `duration_formatted` obtained by rounding `d` to the
nearest second and splitting into `HH:MM:SS`, the minute and second
fields zero-padded to exactly two digits and at most 59, and the hour
field the untruncated quotient by 3600. -/
theorem claim_C5_metadata_format (env : Env) (req : Req)
    (fs : List (String × JVal)) (u pth : String) (d : ℚ)
    (hurl : jsGet (.vobj fs) "media_url" = .vstr u) (hu : u ≠ "")
    (hfetch : env.fetch u "audio-meta" = .ok pth)
    (hprobe : env.probe pth = .ok d) (hd : 0 ≤ d) :
    (runRoute .mediaMetadata env req (.vobj fs)).status = 200 ∧
    (runRoute .mediaMetadata env req (.vobj fs)).body = .metaB d (formatDuration d) ∧
    ∃ hN mN sN : ℕ, mN ≤ 59 ∧ sN ≤ 59 ∧
      ((hN : ℤ) * 3600 + (mN : ℤ) * 60 + (sN : ℤ) = jsRound d) ∧
      ((hN : ℤ) = Int.fdiv (jsRound d) 3600) ∧
      formatDuration d =
        padStart2 (toString hN) ++ ":" ++ padStart2 (toString mN) ++ ":" ++
          padStart2 (toString sN) ∧
      (padStart2 (toString mN)).length = 2 ∧
      (padStart2 (toString sN)).length = 2 := by
  have hrun : runRoute .mediaMetadata env req (.vobj fs) =
      { status := 200, body := .metaB d (formatDuration d),
        fx := [.fetchFx u, .probeFx pth true] } := by
    rw [runRoute, mediaMetadataH]
    rw [if_neg (by simp [isNullish])]
    rw [hurl]
    rw [if_neg (by simp [truthy, hu])]
    rw [show downloadToTempJ env (.vstr u) "audio-meta" =
      ([.fetchFx u], .ok pth) from by rw [downloadToTempJ, hfetch]]
    simp [hprobe]
  have ht0 : 0 ≤ jsRound d := by
    rw [jsRound, Int.le_floor]
    push_cast
    linarith
  obtain ⟨n, hn⟩ : ∃ n : ℕ, (n : ℤ) = jsRound d :=
    ⟨(jsRound d).toNat, Int.toNat_of_nonneg ht0⟩
  have h1 : Int.fdiv ((n : ℕ) : ℤ) 3600 = (((n / 3600 : ℕ) : ℕ) : ℤ) :=
    (Int.ofNat_fdiv n 3600).symm
  have h2 : Int.tmod ((n : ℕ) : ℤ) 3600 = (((n % 3600 : ℕ) : ℕ) : ℤ) := by
    exact_mod_cast (Int.ofNat_tmod n 3600).symm
  have h3 : Int.fdiv (((n % 3600 : ℕ) : ℕ) : ℤ) 60 =
      ((((n % 3600) / 60 : ℕ) : ℕ) : ℤ) := (Int.ofNat_fdiv (n % 3600) 60).symm
  have h4 : Int.tmod ((n : ℕ) : ℤ) 60 = (((n % 60 : ℕ) : ℕ) : ℤ) := by
    exact_mod_cast (Int.ofNat_tmod n 60).symm
  have hfmt : formatDuration d =
      padStart2 (toString (n / 3600)) ++ ":" ++
        padStart2 (toString ((n % 3600) / 60)) ++ ":" ++
        padStart2 (toString (n % 60)) := by
    rw [formatDuration]
    rw [← hn, h1, h2, h3, h4]
    rw [toString_intCast_natCast, toString_intCast_natCast, toString_intCast_natCast]
  refine ⟨by rw [hrun], by rw [hrun], n / 3600, (n % 3600) / 60, n % 60,
    by omega, by omega, ?_, ?_, hfmt, ?_, ?_⟩
  · rw [← hn]
    push_cast
    omega
  · rw [← hn, h1]
  · exact padStart2_length_two _ (natToString_length_le_two _ (by omega))
  · exact padStart2_length_two _ (natToString_length_le_two _ (by omega))

/-- Witness for C5: a probe reporting 7322.6 seconds formats as
02:02:03. -/
theorem claim_C5_metadata_format_witness :
    (runRoute .mediaMetadata envOk (mkReq "/v1/media/metadata" .vnull)
      (.vobj [("media_url", .vstr "http://m/a.mp3")])).status = 200 := by
  exact (claim_C5_metadata_format envOk (mkReq "/v1/media/metadata" .vnull)
    [("media_url", .vstr "http://m/a.mp3")] "http://m/a.mp3"
    (TMP_DIR ++ "/dl-" ++ "http://m/a.mp3") 7 rfl (by decide) rfl rfl
    (by norm_num)).1


theorem strHasPfx_files_of_slash (p : String)
    (h : strHasPfx "/files/" p = true) : strHasPfx "/files" p = true := by
  have hp : p.data.take 7 = "/files/".data := by
    unfold strHasPfx at h
    exact of_decide_eq_true h
  apply decide_eq_true
  show p.data.take ("/files".data).length = "/files".data
  rw [show ("/files".data).length = 6 from rfl]
  calc p.data.take 6 = (p.data.take 7).take 6 := by
        rw [List.take_take]
        norm_num
    _ = ("/files/".data).take 6 := by rw [hp]
    _ = "/files".data := rfl

/-- Claim C3: a request to anything outside the `/files` static subtree
with a missing or mismatched `x-api-key` header is answered 401
`{error:"Unauthorized"}` with no handler logic or I/O performed, while a
GET for an existing artifact under `/files/` is served regardless of the
header, because the static layer is mounted ahead of the key check. -/
theorem claim_C3_auth_gate (secret : String) (files : String → Option String)
    (env : Env) :
    (∀ req : Req, strHasPfx "/files" req.path = false →
      (req.apiKey = none ∨ req.apiKey ≠ some secret) →
      appHandle secret files env req =
        { status := 401, body := .errB "Unauthorized", fx := [] }) ∧
    (∀ (name content : String) (key : Option String),
      name ≠ "" → files name = some content →
      appHandle secret files env
        { method := "GET", path := "/files/" ++ name, apiKey := key,
          fwdProto := none, fwdHost := none, hostHeader := none,
          protocol := "http", body := .vnull } =
        { status := 200, body := .fileB content, fx := [.readFx name] }) := by
  constructor
  · intro req hpath hkey
    have hstatic : strHasPfx "/files/" req.path = false := by
      cases hsp : strHasPfx "/files/" req.path with
      | false => rfl
      | true =>
        rw [strHasPfx_files_of_slash req.path hsp] at hpath
        simp at hpath
    have hpass : (match req.apiKey with
        | none => false
        | some k => decide (k ≠ "" ∧ k = secret)) = false := by
      cases hk : req.apiKey with
      | none => rfl
      | some k =>
        simp only [decide_eq_false_iff_not]
        rintro ⟨-, rfl⟩
        rcases hkey with hnone | hne
        · rw [hk] at hnone
          exact Option.noConfusion hnone
        · rw [hk] at hne
          exact hne rfl
    rw [appHandle, if_neg (by simp [hstatic]), apiKeyGate]
    rw [if_neg (by rw [hpass]; simp)]
  · intro name content key hname hfile
    have hdata : ("/files/" ++ name).data = "/files/".data ++ name.data :=
      String.data_append _ _
    have htake : strHasPfx "/files/" ("/files/" ++ name) = true := by
      apply decide_eq_true
      show ("/files/" ++ name).data.take ("/files/".data).length = "/files/".data
      rw [hdata]
      exact List.take_left _ _
    have hdrop : ("/files/" ++ name).data.drop 7 = name.data := by
      rw [hdata]
      have hdl := List.drop_left "/files/".data name.data
      have h7 : ("/files/".data).length = 7 := rfl
      rw [h7] at hdl
      exact hdl
    have hlen : 7 < ("/files/" ++ name).data.length := by
      rw [hdata, List.length_append]
      have hne : name.data ≠ [] := by
        intro h0
        exact hname (by rw [← string_mk_data name, h0])
      have := List.length_pos.mpr hne
      have h7 : ("/files/".data).length = 7 := rfl
      omega
    rw [appHandle, if_pos ⟨rfl, htake, hlen⟩, hdrop, string_mk_data, hfile]

/-- Witness for C3: a wrong key on the trim route gets 401 with no
effects; the artifact `scene.mp4` is served to a keyless GET. -/
theorem claim_C3_auth_gate_witness :
    appHandle "local-dev-key-123"
      (fun n => if n = "scene.mp4" then some "bytes" else none) envOk
      { method := "POST", path := "/v1/video/trim", apiKey := some "wrong",
        fwdProto := none, fwdHost := none, hostHeader := none,
        protocol := "http", body := .vnull } =
      { status := 401, body := .errB "Unauthorized", fx := [] } ∧
    appHandle "local-dev-key-123"
      (fun n => if n = "scene.mp4" then some "bytes" else none) envOk
      { method := "GET", path := "/files/" ++ "scene.mp4", apiKey := none,
        fwdProto := none, fwdHost := none, hostHeader := none,
        protocol := "http", body := .vnull } =
      { status := 200, body := .fileB "bytes", fx := [.readFx "scene.mp4"] } := by
  have h := claim_C3_auth_gate "local-dev-key-123"
    (fun n => if n = "scene.mp4" then some "bytes" else none) envOk
  exact ⟨h.1 _ (by decide) (Or.inr (by decide)),
    h.2 "scene.mp4" "bytes" none (by decide) (by simp)⟩

/-- The required field of each job kind, per the spec table: the claim
concerns bodies in which that field is absent. -/
def requiredMissing (k : Route) (b : JVal) : Prop :=
  match k with
  | .imageToVideo => jsGet b "image_url" = .vundefined
  | .mediaMetadata => jsGet b "media_url" = .vundefined
  | .videoTrim => jsGet b "video_url" = .vundefined
  | .compose => jsGet b "inputs" = .vundefined
  | .concatenate => jsGet b "video_urls" = .vundefined
  | .caption => jsGet b "video_url" = .vundefined

/-- Claim C4: for every job kind, an object body missing the kind's
required field is answered 400 with no effects: nothing fetched, no
manifest written, no engine invocation, no artifact path allocated. -/
theorem claim_C4_validation_before_io (k : Route) (env : Env) (req : Req)
    (fs : List (String × JVal)) (h : requiredMissing k (.vobj fs)) :
    (runRoute k env req (.vobj fs)).status = 400 ∧
    (runRoute k env req (.vobj fs)).fx = [] ∧
    ∃ m, (runRoute k env req (.vobj fs)).body = .errB m := by
  cases k <;>
    simp only [requiredMissing] at h <;>
    simp [runRoute, imageToVideoH, mediaMetadataH, videoTrimH, composeH,
      concatenateH, captionH, isNullish, h, truthy]

/-- Witness for C4: an empty body on the image-to-video route is 400
with no effects. -/
theorem claim_C4_validation_before_io_witness :
    (runRoute .imageToVideo envOk (mkReq "/v1/image/convert/video" .vnull)
      (.vobj [])).status = 400 ∧
    (runRoute .imageToVideo envOk (mkReq "/v1/image/convert/video" .vnull)
      (.vobj [])).fx = [] :=
  ⟨(claim_C4_validation_before_io .imageToVideo envOk
      (mkReq "/v1/image/convert/video" .vnull) [] rfl).1,
   (claim_C4_validation_before_io .imageToVideo envOk
      (mkReq "/v1/image/convert/video" .vnull) [] rfl).2.1⟩

/-- Claim C6: two ImageToVideo requests identical except for
`zoom_speed` produce identical outcomes — same engine argument vector,
same effects, same response; the field is read but never used. -/
theorem claim_C6_zoom_speed_ignored (env : Env) (req : Req)
    (fs : List (String × JVal)) (z1 z2 : JVal) :
    runRoute .imageToVideo env req (.vobj (("zoom_speed", z1) :: fs)) =
      runRoute .imageToVideo env req (.vobj (("zoom_speed", z2) :: fs)) := by
  simp [runRoute, imageToVideoH, jsGet, lookupField, isNullish]

theorem numOr_falsy (v : JVal) (d : ℚ)
    (h : jsToNumber v = none ∨ jsToNumber v = some 0) : numOr v d = d := by
  rcases h with h | h <;> simp [numOr, h]

/-- Claim C10: in ImageToVideo, the defaults length=20 and frame_rate=25
apply whenever the JS numeric coercion of the given field is falsy —
`NaN` or `0` — so a `0`, `null`, empty-string or non-numeric-string
field behaves exactly like an explicit 20 (resp. 25). -/
theorem claim_C10_falsy_defaults (env : Env) (req : Req)
    (fs : List (String × JVal)) (v : JVal)
    (hfalsy : jsToNumber v = none ∨ jsToNumber v = some 0) :
    runRoute .imageToVideo env req (.vobj (("length", v) :: fs)) =
      runRoute .imageToVideo env req (.vobj (("length", .vnum 20) :: fs)) ∧
    runRoute .imageToVideo env req (.vobj (("frame_rate", v) :: fs)) =
      runRoute .imageToVideo env req (.vobj (("frame_rate", .vnum 25) :: fs)) ∧
    jsToNumber (.vnum 0) = some 0 ∧ jsToNumber .vnull = some 0 ∧
    jsToNumber (.vstr "") = some 0 ∧ jsToNumber (.vstr "abc") = none := by
  refine ⟨?_, ?_, rfl, rfl, rfl, rfl⟩
  · have h1 : numOr v 20 = 20 := numOr_falsy v 20 hfalsy
    have h2 : numOr (.vnum 20) 20 = 20 := by norm_num [numOr, jsToNumber]
    simp [runRoute, imageToVideoH, jsGet, lookupField, isNullish, h1, h2]
  · have h1 : numOr v 25 = 25 := numOr_falsy v 25 hfalsy
    have h2 : numOr (.vnum 25) 25 = 25 := by norm_num [numOr, jsToNumber]
    simp [runRoute, imageToVideoH, jsGet, lookupField, isNullish, h1, h2]

/-- Witness for C10 at the non-numeric string "abc". -/
theorem claim_C10_falsy_defaults_witness :
    runRoute .imageToVideo envOk (mkReq "/v1/image/convert/video" .vnull)
      (.vobj [("length", .vstr "abc")]) =
    runRoute .imageToVideo envOk (mkReq "/v1/image/convert/video" .vnull)
      (.vobj [("length", .vnum 20)]) :=
  (claim_C10_falsy_defaults envOk (mkReq "/v1/image/convert/video" .vnull)
    [] (.vstr "abc") (Or.inl rfl)).1

theorem downloadToTempJ_fx (env : Env) (v : JVal) (pfx : String)
    (fx : List Fx) (r : Except Unit String)
    (h : downloadToTempJ env v pfx = (fx, r)) :
    ∀ e ∈ fx, ∃ u, e = Fx.fetchFx u := by
  cases v <;>
    (simp only [downloadToTempJ] at h
     obtain ⟨h1, -⟩ := Prod.mk.inj h
     subst h1
     intro e he
     first
       | (rcases List.mem_singleton.mp he with rfl
          exact ⟨_, rfl⟩)
       | cases he)

theorem concatLoop_fx (env : Env) (l : List JVal) :
    ∀ e ∈ (concatLoop env l).1, ∃ u, e = Fx.fetchFx u := by
  induction l with
  | nil => simp [concatLoop]
  | cons item rest ih =>
    intro e he
    rw [concatLoop] at he
    by_cases hn : isNullish item
    · simp [hn] at he
    · rw [if_neg (by simp [hn])] at he
      by_cases ht : truthy (jsOr (jsGet item "video_url") item)
      · rw [if_neg (by simp [ht])] at he
        rcases hd : downloadToTempJ env (jsOr (jsGet item "video_url") item) "concat"
          with ⟨fx0, r0⟩
        rw [hd] at he
        cases r0 with
        | error err =>
          simp only [] at he
          exact downloadToTempJ_fx env _ _ _ _ hd e he
        | ok p =>
          rcases hl : concatLoop env rest with ⟨fx1, r1⟩
          rw [hl] at he
          cases r1 <;>
            (simp only [] at he
             rcases List.mem_append.mp he with h1 | h2
             · exact downloadToTempJ_fx env _ _ _ _ hd e h1
             · exact ih e (by rw [hl]; exact h2))
      · rw [if_pos (by simp [ht])] at he
        exact ih e he

theorem imageToVideoH_engine (env : Env) (req : Req) (body : JVal) :
    (∀ a, Fx.engineFx a false ∈ (imageToVideoH env req body).fx →
      (imageToVideoH env req body).status = 500 ∧
      ∃ m, (imageToVideoH env req body).body = .errB m) ∧
    (∀ u i, (imageToVideoH env req body).body = .urlIdB u i →
      ∃ a, Fx.engineFx a true ∈ (imageToVideoH env req body).fx) ∧
    (∀ u, (imageToVideoH env req body).body = .urlB u →
      ∃ a, Fx.engineFx a true ∈ (imageToVideoH env req body).fx) := by
  simp only [imageToVideoH]
  split
  · simp
  · split
    · simp
    · split
      · simp
      · next fx0 imagePath heq =>
        split
        · simp
        · refine ⟨?_, ?_, ?_⟩
          · intro a ha
            exfalso
            rcases List.mem_append.mp ha with h1 | h2
            · obtain ⟨u, hu⟩ := downloadToTempJ_fx env _ _ _ _ heq _ h1
              exact Fx.noConfusion hu
            · simp at h2
          · intro u i _
            exact ⟨_, List.mem_append_right _
              (List.mem_cons_of_mem _ (List.mem_singleton.mpr rfl))⟩
          · intro u hb
            simp at hb

theorem videoTrimH_engine (env : Env) (req : Req) (body : JVal) :
    (∀ a, Fx.engineFx a false ∈ (videoTrimH env req body).fx →
      (videoTrimH env req body).status = 500 ∧
      ∃ m, (videoTrimH env req body).body = .errB m) ∧
    (∀ u i, (videoTrimH env req body).body = .urlIdB u i →
      ∃ a, Fx.engineFx a true ∈ (videoTrimH env req body).fx) ∧
    (∀ u, (videoTrimH env req body).body = .urlB u →
      ∃ a, Fx.engineFx a true ∈ (videoTrimH env req body).fx) := by
  simp only [videoTrimH]
  split
  · simp
  · split
    · simp
    · split
      · simp
      · next fx0 videoPath heq =>
        split
        · simp
        · refine ⟨?_, ?_, ?_⟩
          · intro a ha
            exfalso
            rcases List.mem_append.mp ha with h1 | h2
            · obtain ⟨u, hu⟩ := downloadToTempJ_fx env _ _ _ _ heq _ h1
              exact Fx.noConfusion hu
            · simp at h2
          · intro u i hb
            simp at hb
          · intro u _
            exact ⟨_, List.mem_append_right _
              (List.mem_cons_of_mem _ (List.mem_singleton.mpr rfl))⟩

theorem composeH_engine (env : Env) (req : Req) (body : JVal) :
    (∀ a, Fx.engineFx a false ∈ (composeH env req body).fx →
      (composeH env req body).status = 500 ∧
      ∃ m, (composeH env req body).body = .errB m) ∧
    (∀ u i, (composeH env req body).body = .urlIdB u i →
      ∃ a, Fx.engineFx a true ∈ (composeH env req body).fx) ∧
    (∀ u, (composeH env req body).body = .urlB u →
      ∃ a, Fx.engineFx a true ∈ (composeH env req body).fx) := by
  simp only [composeH]
  split
  · simp
  · split
    · split
      · simp
      · split
        · simp
        · split
          · next fxv err heq => 
            refine ⟨?_, by simp, by simp⟩
            intro a ha
            exfalso
            obtain ⟨u, hu⟩ := downloadToTempJ_fx env _ _ _ _ heq _ ha
            exact Fx.noConfusion hu
          · next fxv videoPath heq =>
            split
            · next fxa err heq2 =>
              refine ⟨?_, by simp, by simp⟩
              intro a ha
              exfalso
              rcases List.mem_append.mp ha with h1 | h2
              · obtain ⟨u, hu⟩ := downloadToTempJ_fx env _ _ _ _ heq _ h1
                exact Fx.noConfusion hu
              · obtain ⟨u, hu⟩ := downloadToTempJ_fx env _ _ _ _ heq2 _ h2
                exact Fx.noConfusion hu
            · next fxa audioPath heq2 =>
              split
              · simp
              · refine ⟨?_, ?_, ?_⟩
                · intro a ha
                  exfalso
                  rcases List.mem_append.mp ha with h1 | h2
                  · rcases List.mem_append.mp h1 with h3 | h4
                    · obtain ⟨u, hu⟩ := downloadToTempJ_fx env _ _ _ _ heq _ h3
                      exact Fx.noConfusion hu
                    · obtain ⟨u, hu⟩ := downloadToTempJ_fx env _ _ _ _ heq2 _ h4
                      exact Fx.noConfusion hu
                  · simp at h2
                · intro u i hb
                  simp at hb
                · intro u _
                  exact ⟨_, List.mem_append_right _
                    (List.mem_cons_of_mem _ (List.mem_singleton.mpr rfl))⟩
    · simp

theorem concatenateH_engine (env : Env) (req : Req) (body : JVal) :
    (∀ a, Fx.engineFx a false ∈ (concatenateH env req body).fx →
      (concatenateH env req body).status = 500 ∧
      ∃ m, (concatenateH env req body).body = .errB m) ∧
    (∀ u i, (concatenateH env req body).body = .urlIdB u i →
      ∃ a, Fx.engineFx a true ∈ (concatenateH env req body).fx) ∧
    (∀ u, (concatenateH env req body).body = .urlB u →
      ∃ a, Fx.engineFx a true ∈ (concatenateH env req body).fx) := by
  simp only [concatenateH]
  split
  · simp
  · split
    · split
      · simp
      · next fx0 heq =>
        refine ⟨?_, by simp, by simp⟩
        intro a ha
        exfalso
        have hfst := congrArg Prod.fst heq
        obtain ⟨u, hu⟩ := concatLoop_fx env _ (Fx.engineFx a false)
          (by rw [hfst]; exact ha)
        exact Fx.noConfusion hu
      · next fx0 p ps heq =>
        split
        · simp
        · refine ⟨?_, ?_, ?_⟩
          · intro a ha
            exfalso
            rcases List.mem_append.mp ha with h1 | h2
            · have hfst := congrArg Prod.fst heq
              obtain ⟨u, hu⟩ := concatLoop_fx env _ (Fx.engineFx a false)
                (by rw [hfst]; exact h1)
              exact Fx.noConfusion hu
            · simp at h2
          · intro u i _
            exact ⟨_, List.mem_append_right _
              (List.mem_cons_of_mem _ (List.mem_cons_of_mem _
                (List.mem_singleton.mpr rfl)))⟩
          · intro u hb
            simp at hb
    · simp

theorem mediaMetadataH_engine (env : Env) (body : JVal) :
    (∀ a, Fx.engineFx a false ∈ (mediaMetadataH env body).fx →
      (mediaMetadataH env body).status = 500 ∧
      ∃ m, (mediaMetadataH env body).body = .errB m) ∧
    (∀ u i, (mediaMetadataH env body).body = .urlIdB u i →
      ∃ a, Fx.engineFx a true ∈ (mediaMetadataH env body).fx) ∧
    (∀ u, (mediaMetadataH env body).body = .urlB u →
      ∃ a, Fx.engineFx a true ∈ (mediaMetadataH env body).fx) := by
  simp only [mediaMetadataH]
  split
  · simp
  · split
    · simp
    · split
      · next fx0 err heq =>
        refine ⟨?_, by simp, by simp⟩
        intro a ha
        exfalso
        obtain ⟨u, hu⟩ := downloadToTempJ_fx env _ _ _ _ heq _ ha
        exact Fx.noConfusion hu
      · next fx0 audioPath heq =>
        split <;>
          (refine ⟨?_, by simp, by simp⟩
           intro a ha
           exfalso
           rcases List.mem_append.mp ha with h1 | h2
           · obtain ⟨u, hu⟩ := downloadToTempJ_fx env _ _ _ _ heq _ h1
             exact Fx.noConfusion hu
           · simp at h2)

theorem captionH_engine (body : JVal) :
    (∀ a, Fx.engineFx a false ∈ (captionH body).fx →
      (captionH body).status = 500 ∧
      ∃ m, (captionH body).body = .errB m) ∧
    (∀ u i, (captionH body).body = .urlIdB u i →
      ∃ a, Fx.engineFx a true ∈ (captionH body).fx) ∧
    (∀ u, (captionH body).body = .urlB u →
      ∃ a, Fx.engineFx a true ∈ (captionH body).fx) := by
  simp only [captionH]
  split
  · simp
  · split <;> simp

/-- Claim C7: whenever a job records a failed engine invocation, its
response is HTTP 500 with a plain error-message body (never an artifact
URL, never a structured code); and a response whose body carries a
published artifact URL can only arise from a run whose effect trace
contains a successful engine invocation. -/
theorem claim_C7_no_artifact_on_engine_failure (k : Route) (env : Env)
    (req : Req) (body : JVal) :
    (∀ a, Fx.engineFx a false ∈ (runRoute k env req body).fx →
      (runRoute k env req body).status = 500 ∧
      ∃ m, (runRoute k env req body).body = .errB m) ∧
    (∀ u i, (runRoute k env req body).body = .urlIdB u i →
      ∃ a, Fx.engineFx a true ∈ (runRoute k env req body).fx) ∧
    (∀ u, (runRoute k env req body).body = .urlB u →
      ∃ a, Fx.engineFx a true ∈ (runRoute k env req body).fx) := by
  cases k
  · exact imageToVideoH_engine env req body
  · exact mediaMetadataH_engine env body
  · exact videoTrimH_engine env req body
  · exact composeH_engine env req body
  · exact concatenateH_engine env req body
  · exact captionH_engine body

/-- Witness for C7: with an always-failing engine, a valid trim request
ends in 500 with a plain error body. -/
theorem claim_C7_no_artifact_on_engine_failure_witness :
    (runRoute .videoTrim envEngineFail (mkReq "/v1/video/trim" .vnull)
      (.vobj [("video_url", .vstr "http://v/a.mp4")])).status = 500 ∧
    ∃ m, (runRoute .videoTrim envEngineFail (mkReq "/v1/video/trim" .vnull)
      (.vobj [("video_url", .vstr "http://v/a.mp4")])).body = .errB m :=
  (claim_C7_no_artifact_on_engine_failure .videoTrim envEngineFail
    (mkReq "/v1/video/trim" .vnull)
    (.vobj [("video_url", .vstr "http://v/a.mp4")])).1
    ["-ss", "00:00:00", "-i", "tmp/dl-http://v/a.mp4", "-c", "copy",
      "public/trim-out-00112233aabbccdd.mp4"]
    (by decide)

theorem imageToVideoH_url (env : Env) (req : Req) (body : JVal) :
    (∀ u i, (imageToVideoH env req body).body = .urlIdB u i →
      ∃ rel, u = getBaseUrl req ++ rel ∧
        Fx.publishFx rel ∈ (imageToVideoH env req body).fx) ∧
    (∀ u, (imageToVideoH env req body).body = .urlB u →
      ∃ rel, u = getBaseUrl req ++ rel ∧
        Fx.publishFx rel ∈ (imageToVideoH env req body).fx) := by
  simp only [imageToVideoH]
  split
  · simp
  · split
    · simp
    · split
      · simp
      · split
        · simp
        · refine ⟨?_, ?_⟩
          · intro u i hb
            injection hb with h1 h2
            exact ⟨_, h1.symm, List.mem_append_right _ (List.mem_cons_self _ _)⟩
          · intro u hb
            simp at hb

theorem videoTrimH_url (env : Env) (req : Req) (body : JVal) :
    (∀ u i, (videoTrimH env req body).body = .urlIdB u i →
      ∃ rel, u = getBaseUrl req ++ rel ∧
        Fx.publishFx rel ∈ (videoTrimH env req body).fx) ∧
    (∀ u, (videoTrimH env req body).body = .urlB u →
      ∃ rel, u = getBaseUrl req ++ rel ∧
        Fx.publishFx rel ∈ (videoTrimH env req body).fx) := by
  simp only [videoTrimH]
  split
  · simp
  · split
    · simp
    · split
      · simp
      · split
        · simp
        · refine ⟨?_, ?_⟩
          · intro u i hb
            simp at hb
          · intro u hb
            injection hb with h1
            exact ⟨_, h1.symm, List.mem_append_right _ (List.mem_cons_self _ _)⟩

theorem composeH_url (env : Env) (req : Req) (body : JVal) :
    (∀ u i, (composeH env req body).body = .urlIdB u i →
      ∃ rel, u = getBaseUrl req ++ rel ∧
        Fx.publishFx rel ∈ (composeH env req body).fx) ∧
    (∀ u, (composeH env req body).body = .urlB u →
      ∃ rel, u = getBaseUrl req ++ rel ∧
        Fx.publishFx rel ∈ (composeH env req body).fx) := by
  simp only [composeH]
  split
  · simp
  · split
    · split
      · simp
      · split
        · simp
        · split
          · simp
          · split
            · simp
            · split
              · simp
              · refine ⟨?_, ?_⟩
                · intro u i hb
                  simp at hb
                · intro u hb
                  injection hb with h1
                  refine ⟨_, h1.symm, ?_⟩
                  exact List.mem_append_right _ (List.mem_cons_self _ _)
    · simp

theorem concatenateH_url (env : Env) (req : Req) (body : JVal) :
    (∀ u i, (concatenateH env req body).body = .urlIdB u i →
      ∃ rel, u = getBaseUrl req ++ rel ∧
        Fx.publishFx rel ∈ (concatenateH env req body).fx) ∧
    (∀ u, (concatenateH env req body).body = .urlB u →
      ∃ rel, u = getBaseUrl req ++ rel ∧
        Fx.publishFx rel ∈ (concatenateH env req body).fx) := by
  simp only [concatenateH]
  split
  · simp
  · split
    · split
      · simp
      · simp
      · split
        · simp
        · refine ⟨?_, ?_⟩
          · intro u i hb
            injection hb with h1 h2
            refine ⟨_, h1.symm, ?_⟩
            exact List.mem_append_right _
              (List.mem_cons_of_mem _ (List.mem_cons_self _ _))
          · intro u hb
            simp at hb
    · simp

theorem mediaMetadataH_url (env : Env) (req : Req) (body : JVal) :
    (∀ u i, (mediaMetadataH env body).body = .urlIdB u i →
      ∃ rel, u = getBaseUrl req ++ rel ∧
        Fx.publishFx rel ∈ (mediaMetadataH env body).fx) ∧
    (∀ u, (mediaMetadataH env body).body = .urlB u →
      ∃ rel, u = getBaseUrl req ++ rel ∧
        Fx.publishFx rel ∈ (mediaMetadataH env body).fx) := by
  simp only [mediaMetadataH]
  split
  · simp
  · split
    · simp
    · split
      · simp
      · split <;> simp

theorem captionH_url (req : Req) (body : JVal) :
    (∀ u i, (captionH body).body = .urlIdB u i →
      ∃ rel, u = getBaseUrl req ++ rel ∧
        Fx.publishFx rel ∈ (captionH body).fx) ∧
    (∀ u, (captionH body).body = .urlB u →
      ∃ rel, u = getBaseUrl req ++ rel ∧
        Fx.publishFx rel ∈ (captionH body).fx) := by
  simp only [captionH]
  split
  · simp
  · split <;> simp

/-- Claim C9: every artifact URL a response carries is exactly
`getBaseUrl(req)` plus the freshly published relative path; and
`getBaseUrl` prefers the forwarded-protocol header over the connection
scheme and the forwarded-host header over the Host header. -/
theorem claim_C9_published_url (k : Route) (env : Env) (req : Req) (body : JVal) :
    (∀ u i, (runRoute k env req body).body = .urlIdB u i →
      ∃ rel, u = getBaseUrl req ++ rel ∧
        Fx.publishFx rel ∈ (runRoute k env req body).fx) ∧
    (∀ u, (runRoute k env req body).body = .urlB u →
      ∃ rel, u = getBaseUrl req ++ rel ∧
        Fx.publishFx rel ∈ (runRoute k env req body).fx) ∧
    (∀ r : Req, ∀ p h : String, r.fwdProto = some p → p ≠ "" →
      r.fwdHost = some h → h ≠ "" → getBaseUrl r = p ++ "://" ++ h) ∧
    (∀ r : Req, ∀ h0 : String, r.fwdProto = none → r.fwdHost = none →
      r.hostHeader = some h0 → getBaseUrl r = r.protocol ++ "://" ++ h0) := by
  refine ⟨?_, ?_, ?_, ?_⟩
  · cases k
    · exact (imageToVideoH_url env req body).1
    · exact (mediaMetadataH_url env req body).1
    · exact (videoTrimH_url env req body).1
    · exact (composeH_url env req body).1
    · exact (concatenateH_url env req body).1
    · exact (captionH_url req body).1
  · cases k
    · exact (imageToVideoH_url env req body).2
    · exact (mediaMetadataH_url env req body).2
    · exact (videoTrimH_url env req body).2
    · exact (composeH_url env req body).2
    · exact (concatenateH_url env req body).2
    · exact (captionH_url req body).2
  · intro r p h hp hpne hh hhne
    rw [getBaseUrl, hp, hh]
    simp [hpne, hhne]
  · intro r h0 hp hh hh0
    rw [getBaseUrl, hp, hh, hh0]

/-- A request carrying forwarded-protocol and forwarded-host headers, as
a reverse proxy would send. -/
def reqBehindProxy : Req where
  method := "POST"
  path := "/v1/video/trim"
  apiKey := none
  fwdProto := some "https"
  fwdHost := some "cdn.example.com"
  hostHeader := some "localhost:8080"
  protocol := "http"
  body := .vnull

/-- Witness for C9: a successful trim against the plain request yields
the base-URL-plus-relative-path shape, and the forwarded headers take
precedence when present. -/
theorem claim_C9_published_url_witness :
    (∃ rel, "http://localhost:8080/files/trim-out-00112233aabbccdd.mp4" =
        getBaseUrl (mkReq "/v1/video/trim" .vnull) ++ rel ∧
      Fx.publishFx rel ∈ (runRoute .videoTrim envOk (mkReq "/v1/video/trim" .vnull)
        (.vobj [("video_url", .vstr "http://v/a.mp4")])).fx) ∧
    getBaseUrl reqBehindProxy = "https://cdn.example.com" := by
  constructor
  · exact (claim_C9_published_url .videoTrim envOk (mkReq "/v1/video/trim" .vnull)
      (.vobj [("video_url", .vstr "http://v/a.mp4")])).2.1
      "http://localhost:8080/files/trim-out-00112233aabbccdd.mp4" rfl
  · exact (claim_C9_published_url .videoTrim envOk (mkReq "/v1/video/trim" .vnull)
      .vnull).2.2.1 reqBehindProxy "https" "cdn.example.com" rfl (by decide) rfl
      (by decide)

/-- Claim C8 (amended): with at least two entries in `inputs`, a missing
(falsy) `file_url` on the first or second entry yields 400 with no
effects — provided those entries are not JSON `null`, since a null entry
throws at the property access and is caught as 500 instead. -/
theorem claim_C8_compose_missing_file_url (env : Env) (req : Req)
    (fs : List (String × JVal)) (in0 in1 : JVal) (rest : List JVal)
    (hin : jsGet (.vobj fs) "inputs" = .varr (in0 :: in1 :: rest))
    (h0 : isNullish in0 = false) (h1 : isNullish in1 = false)
    (hmiss : ¬ truthy (jsGet in0 "file_url") ∨ ¬ truthy (jsGet in1 "file_url")) :
    runRoute .compose env req (.vobj fs) =
      { status := 400, body := .errB "file_url missing in inputs", fx := [] } := by
  rw [runRoute, composeH, if_neg (by simp [isNullish]), hin]
  simp only []
  rw [if_neg (by simp [h0, h1])]
  rw [if_pos hmiss]

/-- Counterexample to C8 as stated: the body
`{inputs: [null, {file_url: "http://e/a.mp4"}]}` has `inputs[0]` lacking
any `file_url` value, yet the response is 500 (the `.file_url` access on
`null` throws), not the claimed 400 validation failure. -/
theorem claim_C8_compose_missing_file_url_counterexample :
    ¬ truthy (jsGet JVal.vnull "file_url") ∧
    (runRoute .compose envOk (mkReq "/v1/ffmpeg/compose" .vnull)
      (.vobj [("inputs", .varr [JVal.vnull,
        .vobj [("file_url", .vstr "http://e/a.mp4")]])])).status = 500 ∧
    ¬ (runRoute .compose envOk (mkReq "/v1/ffmpeg/compose" .vnull)
      (.vobj [("inputs", .varr [JVal.vnull,
        .vobj [("file_url", .vstr "http://e/a.mp4")]])])).status = 400 := by
  refine ⟨by decide, rfl, by decide⟩

/-- Witness for the amended C8: an empty-object first input is answered
400 before any fetch. -/
theorem claim_C8_compose_missing_file_url_witness :
    runRoute .compose envOk (mkReq "/v1/ffmpeg/compose" .vnull)
      (.vobj [("inputs", .varr [.vobj [],
        .vobj [("file_url", .vstr "http://e/a.mp4")]])]) =
      { status := 400, body := .errB "file_url missing in inputs", fx := [] } :=
  claim_C8_compose_missing_file_url envOk (mkReq "/v1/ffmpeg/compose" .vnull)
    [("inputs", .varr [.vobj [], .vobj [("file_url", .vstr "http://e/a.mp4")]])]
    (.vobj []) (.vobj [("file_url", .vstr "http://e/a.mp4")]) [] rfl rfl rfl
    (Or.inl (by decide))

theorem resolvedOf_cons (item : JVal) (rest : List JVal) :
    resolvedOf (item :: rest) =
      if truthy (resolveEntry item) = true then resolveEntry item :: resolvedOf rest
      else resolvedOf rest := by
  simp only [resolvedOf, List.filterMap_cons]
  cases h : truthy (resolveEntry item) <;> simp [h]

theorem concatLoop_all_skipped (env : Env) (l : List JVal)
    (hnn : ∀ e ∈ l, isNullish e = false) (hres : resolvedOf l = []) :
    concatLoop env l = ([], .ok []) := by
  induction l with
  | nil => rfl
  | cons item rest ih =>
    have hn : isNullish item = false := hnn item (by simp)
    have hurl : jsOr (jsGet item "video_url") item = resolveEntry item := rfl
    rw [resolvedOf_cons] at hres
    cases htr : truthy (resolveEntry item) with
    | true =>
      rw [htr] at hres
      simp at hres
    | false =>
      rw [htr] at hres
      simp at hres
      rw [concatLoop, if_neg (by simp [hn]), if_pos (by simp [hurl, htr])]
      exact ih (fun e he => hnn e (List.mem_cons_of_mem _ he)) hres

theorem concatLoop_all_fetched (env : Env) (f : String → String)
    (hf : ∀ s pfx2, env.fetch s pfx2 = .ok (f s)) (l : List JVal)
    (hnn : ∀ e ∈ l, isNullish e = false) :
    ∀ ss : List String, resolvedOf l = ss.map JVal.vstr →
    concatLoop env l = (ss.map Fx.fetchFx, .ok (ss.map f)) := by
  induction l with
  | nil =>
    intro ss hres
    simp only [resolvedOf, List.filterMap_nil] at hres
    cases ss with
    | nil => rfl
    | cons a t => exact List.noConfusion hres
  | cons item rest ih =>
    intro ss hres
    have hn : isNullish item = false := hnn item (by simp)
    have hurl : jsOr (jsGet item "video_url") item = resolveEntry item := rfl
    have ihr := ih (fun e he => hnn e (List.mem_cons_of_mem _ he))
    rw [resolvedOf_cons] at hres
    cases htr : truthy (resolveEntry item) with
    | false =>
      rw [htr] at hres
      simp at hres
      rw [concatLoop, if_neg (by simp [hn]), if_pos (by simp [hurl, htr])]
      exact ihr ss hres
    | true =>
      rw [htr] at hres
      simp at hres
      cases ss with
      | nil => simp at hres
      | cons s0 ss2 =>
        rw [List.map_cons] at hres
        injection hres with he0 hrest
        have hts : truthy (JVal.vstr s0) = true := by
          rw [← he0]
          exact htr
        rw [concatLoop, if_neg (by simp [hn]), hurl, he0, if_neg (by simp [hts])]
        rw [show downloadToTempJ env (JVal.vstr s0) "concat" =
          ([Fx.fetchFx s0], Except.ok (f s0)) from by simp [downloadToTempJ, hf]]
        simp only []
        rw [ihr ss2 hrest]
        simp

theorem fetchesOf_append (a b : List Fx) :
    fetchesOf (a ++ b) = fetchesOf a ++ fetchesOf b :=
  List.filterMap_append a b _

theorem fetchesOf_map_fetch (ss : List String) :
    fetchesOf (ss.map Fx.fetchFx) = ss := by
  induction ss with
  | nil => rfl
  | cons a t ih =>
    simp only [List.map_cons, fetchesOf, List.filterMap_cons] at ih ⊢
    rw [ih]

/-- Claim C1 (amended): in Concatenate, an entry is silently skipped
exactly when its resolution `entry.video_url || entry` is falsy; the job
is answered 400 `No valid video URLs` precisely when every entry's
resolution is falsy; and when the surviving resolutions are (nonempty)
URL strings that the transport can fetch and the engine succeeds, the
job succeeds and fetches exactly those strings in input order.  (An
entry whose resolution is truthy but not a fetchable URL string — e.g. a
plain object — is not skipped: its download throws and the whole job
fails 500, which is what forces this amendment.) -/
theorem claim_C1_concat_skip (env : Env) (req : Req) (fs : List (String × JVal))
    (l : List JVal) (hl : jsGet (.vobj fs) "video_urls" = .varr l) (hne : l ≠ [])
    (hnn : ∀ e ∈ l, isNullish e = false) :
    (resolvedOf l = [] →
      runRoute .concatenate env req (.vobj fs) =
        { status := 400, body := .errB "No valid video URLs", fx := [] }) ∧
    (∀ (ss : List String) (f : String → String), ss ≠ [] →
      resolvedOf l = ss.map JVal.vstr →
      (∀ s pfx2, env.fetch s pfx2 = .ok (f s)) →
      (∀ a, env.engine a = .ok ()) →
      (runRoute .concatenate env req (.vobj fs)).status = 200 ∧
      fetchesOf (runRoute .concatenate env req (.vobj fs)).fx = ss) := by
  cases l with
  | nil => exact absurd rfl hne
  | cons e0 es =>
    constructor
    · intro hres
      rw [runRoute, concatenateH, if_neg (by simp [isNullish]), hl]
      simp only []
      rw [concatLoop_all_skipped env (e0 :: es) hnn hres]
    · intro ss f hssne hres hf heng
      cases ss with
      | nil => exact absurd rfl hssne
      | cons s0 ss2 =>
        have hout : runRoute .concatenate env req (.vobj fs) =
            { status := 200,
              body := .urlIdB
                (getBaseUrl req ++ (makePublicPath env 1
                  (if truthy (jsGet (.vobj fs) "id") = true then
                    "concat-" ++ jsToString (jsGet (.vobj fs) "id")
                  else "concat-out") ".mp4").2)
                (jsOr (jsGet (.vobj fs) "id") .vnull),
              fx := (s0 :: ss2).map Fx.fetchFx ++
                [.writeFx (TMP_DIR ++ "/concat-" ++ env.hexId 0 ++ ".txt")
                    (listContent ((s0 :: ss2).map f)),
                  .publishFx (makePublicPath env 1
                    (if truthy (jsGet (.vobj fs) "id") = true then
                      "concat-" ++ jsToString (jsGet (.vobj fs) "id")
                    else "concat-out") ".mp4").2,
                  .engineFx ["-f", "concat", "-safe", "0", "-i",
                    TMP_DIR ++ "/concat-" ++ env.hexId 0 ++ ".txt", "-c", "copy",
                    (makePublicPath env 1
                      (if truthy (jsGet (.vobj fs) "id") = true then
                        "concat-" ++ jsToString (jsGet (.vobj fs) "id")
                      else "concat-out") ".mp4").1] true] } := by
          rw [runRoute, concatenateH, if_neg (by simp [isNullish]), hl]
          simp only []
          rw [concatLoop_all_fetched env f hf (e0 :: es) hnn (s0 :: ss2) hres]
          simp only [List.map_cons]
          rw [heng]
        rw [hout]
        constructor
        · rfl
        · rw [show ({ status := 200, body := _, fx := _ } : HOut).fx = _ from rfl]
          rw [fetchesOf_append, fetchesOf_map_fetch]
          simp [fetchesOf]

/-- Counterexample to C1 as stated: with every transport fetch
succeeding, `video_urls = ["http://ok/a.mp4", {}]` has one entry that
resolves to a usable URL and one that does not (the empty object
resolves to itself, which is no URL at all).  The claim says the second
entry is silently skipped and the pipeline proceeds with the first; the
code instead attempts to download the object, throws, and fails the
whole job with 500 — neither a skip (200) nor the zero-resolved client
error (400). -/
theorem claim_C1_concat_skip_counterexample :
    resolvesToUsableUrl envOk (.vstr "http://ok/a.mp4") ∧
    ¬ resolvesToUsableUrl envOk (.vobj []) ∧
    (runRoute .concatenate envOk (mkReq "/v1/video/concatenate" .vnull)
      (.vobj [("video_urls",
        .varr [.vstr "http://ok/a.mp4", .vobj []])])).status = 500 ∧
    ¬ (runRoute .concatenate envOk (mkReq "/v1/video/concatenate" .vnull)
      (.vobj [("video_urls",
        .varr [.vstr "http://ok/a.mp4", .vobj []])])).status = 200 ∧
    ¬ (runRoute .concatenate envOk (mkReq "/v1/video/concatenate" .vnull)
      (.vobj [("video_urls",
        .varr [.vstr "http://ok/a.mp4", .vobj []])])).status = 400 := by
  refine ⟨⟨"http://ok/a.mp4", "tmp/dl-" ++ "http://ok/a.mp4", rfl, by decide, rfl⟩,
    ?_, rfl, by decide, by decide⟩
  rintro ⟨s, p, hres, -, -⟩
  exact JVal.noConfusion hres

/-- Witness for the amended C1: of the two entries
`["http://ok/a.mp4", ""]` only the first resolves truthily; the job
succeeds and fetches exactly that one URL. -/
theorem claim_C1_concat_skip_witness :
    (runRoute .concatenate envOk (mkReq "/v1/video/concatenate" .vnull)
      (.vobj [("video_urls",
        .varr [.vstr "http://ok/a.mp4", .vstr ""])])).status = 200 ∧
    fetchesOf (runRoute .concatenate envOk (mkReq "/v1/video/concatenate" .vnull)
      (.vobj [("video_urls",
        .varr [.vstr "http://ok/a.mp4", .vstr ""])])).fx = ["http://ok/a.mp4"] :=
  (claim_C1_concat_skip envOk (mkReq "/v1/video/concatenate" .vnull)
    [("video_urls", .varr [.vstr "http://ok/a.mp4", .vstr ""])]
    [.vstr "http://ok/a.mp4", .vstr ""] rfl (List.cons_ne_nil _ _) (by decide)).2
    ["http://ok/a.mp4"] (fun s => "tmp/dl-" ++ s) (by decide) rfl
    (fun s pfx2 => rfl) (fun a => rfl)
